import Mathlib

/-!
Verification of the KFC_Py real-time chess engine (`src/CTD25/KFC_Py`).

This file gives a shallow embedding of the pieces of the engine that the
specification's claims are about:

* `Game._resolve_collisions` (collision/capture arbitration),
* `Game._check_pawn_promotion` / `Game._promote_pawn_to_queen`,
* `Game._check_post_collision_promotions`,
* `Game._validate`, `Game._is_win`, `Game._check_and_announce_win`,
* `Game.run` / `Game._run_game_loop` (event-emission skeleton),
* `Game._process_input` (command pipeline, modulo the piece state machine
  which is abstracted as a parameter),
* `EventManager.publish` (`events/event_manager.py`),
* `ScoreTracker.on_piece_captured` (`events/score_tracker.py`).

Pieces are modelled as records carrying the results of the state/physics
queries that `Game.py` performs on them (`can_capture()`, `can_be_captured()`,
`isinstance(physics, KnightJumpPhysics)`, `hasattr(physics,
'can_capture_at_current_position')`, `can_capture_at_current_position()`,
`get_start_ms()`, `current_cell()`); `Game.py` treats these as opaque queries,
so the embedding quantifies over their values.
-/

namespace KFC

/-- A board cell `(row, col)`. -/
abbrev Cell := Int × Int

/-- A piece as observed by `Game.py`: its id string plus the answers of the
state/physics queries that `Game._resolve_collisions` and friends perform. -/
structure Piece where
  /-- `piece.id`, e.g. `"PW3"` (type char, side char, disambiguator). -/
  id : String
  /-- `piece.state.can_capture()` -/
  canCapture : Bool
  /-- `piece.state.can_be_captured()` -/
  canBeCaptured : Bool
  /-- `isinstance(piece.state.physics, KnightJumpPhysics)` -/
  isKnightJump : Bool
  /-- `hasattr(piece.state.physics, 'can_capture_at_current_position')` -/
  hasCCA : Bool
  /-- `piece.state.physics.can_capture_at_current_position()` -/
  atLanding : Bool
  /-- `piece.state.physics.get_start_ms()` -/
  startMs : Int
  /-- `piece.current_cell()` -/
  cell : Cell
  deriving DecidableEq, Repr

/-- `Game._side_of`: `piece_id[1]` (defaulting for ill-formed ids, which would
raise in Python; all claims use well-formed ids). -/
def sideOf (id : String) : Char := id.data.getD 1 '?'

/-- Python's `s.startswith(pre)`. -/
def strStarts (s pre : String) : Bool := pre.data.isPrefixOf s.data

/-- Python's `max(lst, key=...)` keeps the first element among maximal ones:
it replaces the running best only on a strictly greater key. -/
def maxByStart : List Piece → Option Piece
  | [] => none
  | p :: ps => some (ps.foldl (fun best q => if best.startMs < q.startMs then q else best) p)

/-- Membership test used by `Game._resolve_collisions` when collecting
`attacking_pieces`: `can_capture()`, with the knight carve-out that a
`KnightJumpPhysics` piece only counts when
`can_capture_at_current_position()` is true (falling back to counting it
when the attribute is missing). -/
def isAttacker (p : Piece) : Bool :=
  p.canCapture &&
    (if p.isKnightJump then (if p.hasCCA then p.atLanding else true) else true)

/-- A knight mid-jump that is not at its landing cell
(`isinstance(physics, KnightJumpPhysics)` and the attribute reports it cannot
capture at its current position): it is "just passing through". -/
def isPassingKnight (p : Piece) : Bool :=
  p.isKnightJump && p.hasCCA && !p.atLanding

/-- Winner selection of `Game._resolve_collisions` for one cell's occupant
list: attackers first (most recent `get_start_ms` wins), otherwise the most
recent non-passing-through occupant, otherwise (only passing knights) the
cell is left unresolved. -/
def selectWinner (plist : List Piece) : Option Piece :=
  let attackers := plist.filter isAttacker
  if attackers.isEmpty then
    let nonKnights := plist.filter (fun p => !(isPassingKnight p))
    if !nonKnights.isEmpty then
      maxByStart nonKnights
    else if !(plist.filter isPassingKnight).isEmpty then
      none
    else
      maxByStart plist
  else
    maxByStart attackers

/-- The occupants captured once `winner` is chosen: not the winner (object
identity in Python; id equality here, adequate under the unique-id invariant),
not a passing-through knight, `can_be_captured()`, and of the opposing side. -/
def capturedAt (winner : Piece) (plist : List Piece) : List Piece :=
  plist.filter (fun p =>
    p.id != winner.id && !(isPassingKnight p) && p.canBeCaptured &&
      sideOf p.id != sideOf winner.id)

/-- The payload of a `PIECE_CAPTURED` event as published by
`Game._resolve_collisions`. -/
structure CaptureEvent where
  /-- `'piece_type'`: the captured piece's id. -/
  pieceType : String
  /-- `'captured_by'`: the winner's id. -/
  capturedBy : String
  /-- `'from_position'`: `piece_previous_positions.get(winner.id, (0, 0))`. -/
  fromPosition : Cell
  /-- `'position'`: the cell of capture. -/
  position : Cell
  deriving DecidableEq, Repr

/-- `self.piece_previous_positions.get(id, (0, 0))`. -/
def lookupPos (prev : List (String × Cell)) (id : String) : Cell :=
  (Option.map Prod.snd (prev.find? (fun kv => kv.1 == id))).getD (0, 0)

/-- Resolution of a single cell (`Game._resolve_collisions` loop body):
`none` when the cell has fewer than two occupants or is left unresolved,
otherwise the winner, the captured occupants, and the `PIECE_CAPTURED`
events published for them (in occupant order). -/
def resolveCell (prev : List (String × Cell)) (cell : Cell) (plist : List Piece) :
    Option (Piece × List Piece × List CaptureEvent) :=
  if plist.length < 2 then none
  else
    match selectWinner plist with
    | none => none
    | some w =>
        let caps := capturedAt w plist
        some (w, caps, caps.map (fun c => ⟨c.id, w.id, lookupPos prev w.id, cell⟩))

/-- The slice of the `Game` object state that the claims are about. -/
structure GameState where
  /-- `self.pieces`, the live piece collection. -/
  pieces : List Piece
  /-- `self.piece_by_id`, an insertion-ordered dict modelled as an
  association list with unique keys. -/
  pieceById : List (String × Piece)
  /-- `self.promoted_pawns`. -/
  promotedPawns : List String
  /-- `self.promoted_queens`. -/
  promotedQueens : List String
  /-- `self.piece_previous_positions`. -/
  prevPositions : List (String × Cell)
  /-- `self.should_exit`. -/
  shouldExit : Bool
  /-- `hasattr(self, '_win_announced')`. -/
  winAnnounced : Bool
  deriving Repr

/-- The keys of the id-to-piece lookup. -/
def keys (l : List (String × Piece)) : List String := l.map Prod.fst

/-- `Game._update_cell2piece_map` as a query: the occupant list of a cell,
in `self.pieces` order. -/
def occupants (pieces : List Piece) (cell : Cell) : List Piece :=
  pieces.filter (fun p => p.cell == cell)

/-- The keys of the rebuilt `self.pos` dict, in first-occurrence order
(Python dict insertion order). -/
def cellsOf (pieces : List Piece) : List Cell :=
  pieces.foldl (fun acc p => if acc.contains p.cell then acc else acc ++ [p.cell]) []

/-- Removal of the captured pieces from the live collection
(`self.pieces.remove(p)` per captured piece; id-based, adequate under the
unique-id invariant). -/
def removeCaptured (pieces caps : List Piece) : List Piece :=
  pieces.filter (fun q => !(caps.any (fun c => c.id == q.id)))

/-- `Game._resolve_collisions`: the occupancy index is rebuilt once from the
incoming piece list and each multi-occupant cell is resolved against that
snapshot; captured pieces are removed from `self.pieces` (`self.pieces.remove`,
modelled as an id filter, adequate under the unique-id invariant) and one
`PIECE_CAPTURED` event is published per captured piece.  The id-to-piece
lookup `self.piece_by_id` is not touched by this method. -/
def resolveCollisions (st : GameState) : GameState × List CaptureEvent :=
  (cellsOf st.pieces).foldl
    (fun acc cell =>
      match resolveCell st.prevPositions cell (occupants st.pieces cell) with
      | none => acc
      | some (_, caps, evs) =>
          ({ acc.1 with pieces := removeCaptured acc.1.pieces caps },
            acc.2 ++ evs))
    (st, [])

/-! ### Pawn promotion (`Game._check_pawn_promotion`,
`Game._promote_pawn_to_queen`, `Game._check_post_collision_promotions`) -/

/-- Decimal digit character, as produced by Python's `str`. -/
def digitChar (n : Nat) : Char := Char.ofNat (48 + n)

/-- Decimal rendering of a natural number (fuelled; `natToString` supplies
enough fuel), matching Python's `str(n)` / an f-string's `{n}`. -/
def natDigits : Nat → Nat → List Char
  | 0, _ => []
  | fuel + 1, n =>
      if n < 10 then [digitChar n]
      else natDigits fuel (n / 10) ++ [digitChar (n % 10)]

/-- Python's `str(n)` for a natural number. -/
def natToString (n : Nat) : String := String.mk (natDigits (n + 1) n)

/-- The candidate queen id `f'Q{piece_color}_{queen_number}'`. -/
def queenIdStr (color : Char) (n : Nat) : String :=
  "Q" ++ String.mk [color] ++ "_" ++ natToString n

/-- The `while f'{queen_base}_{queen_number}' in self.piece_by_id:
queen_number += 1` search, fuelled; `mintQueenNumber` supplies enough fuel
for it to terminate at the first free number. -/
def mintFrom (ks : List String) (color : Char) : Nat → Nat → Nat
  | 0, n => n
  | fuel + 1, n =>
      if ks.contains (queenIdStr color n) then mintFrom ks color fuel (n + 1)
      else n

/-- The queen number minted by `Game._promote_pawn_to_queen`: the smallest
`n ≥ 1` such that `Q<side>_<n>` is not a key of the lookup. -/
def mintQueenNumber (ks : List String) (color : Char) : Nat :=
  mintFrom ks color (ks.length + 1) 1

/-- `del self.piece_by_id[old_id]` on the association list. -/
def eraseKey (l : List (String × Piece)) (k : String) : List (String × Piece) :=
  l.filter (fun kv => kv.1 != k)

/-- The payload of the `PIECE_MOVED` event published by promotion
(and, in `processInput`, by ordinary moves). -/
structure MovedEvent where
  piece : String
  fromCell : Cell
  toCell : Cell
  commandType : String
  promotion : Bool
  oldPieceId : String
  deriving DecidableEq, Repr

/-- `Game._promote_pawn_to_queen`: retire the old id from the lookup, mint
the first free `Q<side>_<n>` id, rebind the same piece (same cell — the
state-machine swap resets it to idle at its current position) under the new
id, record the queen id, and publish a `PIECE_MOVED` event with a
`promotion=True` marker carrying old and new ids at the same cell.
The graphics/asset loading is presentation-only and cell-preserving, so it
does not appear in the model. -/
def promotePawnToQueen (st : GameState) (pawn : Piece) : GameState × Option MovedEvent :=
  if !(strStarts pawn.id "P") then (st, none)
  else
    let color := sideOf pawn.id
    let n := mintQueenNumber (keys st.pieceById) color
    let newId := queenIdStr color n
    let newPiece := { pawn with id := newId }
    let st' := { st with
      pieceById := eraseKey st.pieceById pawn.id ++ [(newId, newPiece)],
      pieces := st.pieces.map (fun q => if q.id == pawn.id then newPiece else q),
      promotedQueens := st.promotedQueens ++ [newId] }
    (st', some ⟨newId, pawn.cell, pawn.cell, "promotion", true, pawn.id⟩)

/-- `Game._check_pawn_promotion`: only never-promoted pawns promote, white on
row 0 and black on row 7; the pawn id is recorded in the promoted-pawns
ledger before the promotion itself runs. -/
def checkPawnPromotion (st : GameState) (piece : Piece) (position : Cell) :
    GameState × Option MovedEvent :=
  if !(strStarts piece.id "P") then (st, none)
  else if st.promotedPawns.contains piece.id then (st, none)
  else
    let color := sideOf piece.id
    let shouldPromote :=
      (color == 'W' && position.1 == 0) || (color == 'B' && position.1 == 7)
    if shouldPromote then
      promotePawnToQueen { st with promotedPawns := st.promotedPawns ++ [piece.id] } piece
    else (st, none)

/-- `Game._check_post_collision_promotions`: scan all pieces each tick and
run the promotion check on every unpromoted pawn on its promotion row. -/
def checkPostCollisionPromotions (st : GameState) : GameState × List MovedEvent :=
  st.pieces.foldl
    (fun acc p =>
      if strStarts p.id "P" && !(acc.1.promotedPawns.contains p.id) then
        let color := sideOf p.id
        if (color == 'W' && p.cell.1 == 0) || (color == 'B' && p.cell.1 == 7) then
          let res := checkPawnPromotion acc.1 p p.cell
          (res.1, acc.2 ++ res.2.toList)
        else acc
      else acc)
    (st, [])

/-! ### Construction-time validation (`Game._validate`, `Game.__init__`) -/

/-- The loop of `Game._validate`: `seen_cells` records, per cell, the side of
the first piece listed at that cell; a later piece at a seen cell fails
validation only when its side equals that recorded side.  King presence is
tracked by id prefix. -/
def validateAux : List Piece → List (Cell × Char) → Bool → Bool → Bool
  | [], _, hw, hb => hw && hb
  | p :: ps, seen, hw, hb =>
      let hw' := hw || strStarts p.id "KW"
      let hb' := hb || (!(strStarts p.id "KW") && strStarts p.id "KB")
      match seen.find? (fun e => e.1 == p.cell) with
      | some e =>
          if e.2 == sideOf p.id then false
          else validateAux ps seen hw' hb'
      | none => validateAux ps ((p.cell, sideOf p.id) :: seen) hw' hb'

/-- `Game._validate(pieces)`. -/
def validate (pieces : List Piece) : Bool := validateAux pieces [] false false

/-- `Game.__init__`: raises `InvalidBoard` (modelled as `none`) when
validation fails, otherwise constructs the state with the id lookup built
from the piece list. -/
def gameInit (pieces : List Piece) : Option GameState :=
  if validate pieces then
    some { pieces := pieces
           pieceById := pieces.map (fun p => (p.id, p))
           promotedPawns := []
           promotedQueens := []
           prevPositions := []
           shouldExit := false
           winAnnounced := false }
  else none

/-! ### Win check and game-loop event skeleton (`Game._is_win`,
`Game._check_and_announce_win`, `Game._run_game_loop`, `Game.run`) -/

/-- Top-level event tags published by the game loop. -/
inductive EvTag where
  | gameStarted
  | gameEnded
  deriving DecidableEq, Repr

/-- `Game._is_win`: fewer than two king ids (prefix `KW` or `KB`) remain. -/
def isWin (pieces : List Piece) : Bool :=
  (pieces.filter (fun p => strStarts p.id "KW" || strStarts p.id "KB")).length < 2

/-- `Game._check_and_announce_win`: on a winning tick, publish `GAME_ENDED`
only if `_win_announced` is not yet set, and set it. -/
def checkAndAnnounceWin (announced : Bool) (pieces : List Piece) : Bool × List EvTag :=
  if isWin pieces then
    if !announced then (true, [.gameEnded]) else (announced, [])
  else (announced, [])

/-- The `GAME_ENDED` emissions of `Game._run_game_loop`, given the live
piece list at each tick's win check. -/
def runLoopWin : Bool → List (List Piece) → Bool × List EvTag
  | ann, [] => (ann, [])
  | ann, t :: ts =>
      ((runLoopWin (checkAndAnnounceWin ann t).1 ts).1,
        (checkAndAnnounceWin ann t).2 ++ (runLoopWin (checkAndAnnounceWin ann t).1 ts).2)

/-- The `GAME_STARTED`/`GAME_ENDED` emissions of `Game.run`: one
`GAME_STARTED` up front, the loop's win announcements, and one further
`GAME_ENDED` published unconditionally after the loop exits. -/
def runEvents (ticks : List (List Piece)) : List EvTag :=
  .gameStarted :: (runLoopWin false ticks).2 ++ [.gameEnded]

/-! ### Command pipeline (`Game._process_input`) -/

/-- A `Command` as consumed by `Game._process_input`. -/
structure Command where
  timestamp : Int
  pieceId : String
  type : String
  params : List Cell
  deriving DecidableEq, Repr

/-- `Game._process_input`, with the piece state machine's
`mover.on_command(cmd, pos)` abstracted as the parameter `onCommand`
(the state machine lives outside `Game.py`): an `exit` command sets
`should_exit`; an unknown piece id is dropped; otherwise the previous
position is recorded and the command is forwarded to the piece's state
machine, whose mutation is visible through both `self.pieces` and
`self.piece_by_id` (Python mutates the shared object).  Nothing in the
method consults the win condition or `_win_announced`. -/
def processInput (onCommand : Piece → Command → Piece)
    (st : GameState) (cmd : Command) : GameState :=
  if cmd.type == "exit" then { st with shouldExit := true }
  else
    match st.pieceById.find? (fun kv => kv.1 == cmd.pieceId) with
    | none => st
    | some kv =>
        let mover := kv.2
        let mover' := onCommand mover cmd
        { st with
          prevPositions :=
            (cmd.pieceId, mover.cell) ::
              st.prevPositions.filter (fun e => e.1 != cmd.pieceId),
          pieces := st.pieces.map (fun q => if q.id == mover.id then mover' else q),
          pieceById := st.pieceById.map
            (fun e => if e.1 == cmd.pieceId then (e.1, mover') else e) }

/-! ### Event bus (`events/event_manager.py`) -/

/-- A subscriber callback acting on a shared observer world `σ`:
`none` models the callback raising an exception (its effect is discarded
and the exception is caught by the bus). -/
structure Handler (σ ε : Type) where
  run : σ → ε → Option σ

/-- `EventManager.publish`: invoke every handler registered for the event's
type in registration order; a raising handler is caught (state unchanged)
and the remaining handlers still run; nothing propagates to the publisher. -/
def publish {σ ε : Type} (hs : List (Handler σ ε)) (e : ε) (st : σ) : σ :=
  hs.foldl
    (fun s h =>
      match h.run s e with
      | some s' => s'
      | none => s)
    st

/-- Publishing a sequence of events through the same subscriber list. -/
def publishAll {σ ε : Type} (hs : List (Handler σ ε)) (es : List ε) (st : σ) : σ :=
  es.foldl (fun s e => publish hs e s) st

/-! ### Score tracker (`events/score_tracker.py`) -/

/-- The observable state of a `ScoreTracker`. -/
structure ScoreState where
  whiteScore : Nat
  blackScore : Nat
  capturedW : List String
  capturedB : List String
  deriving DecidableEq, Repr

/-- `ScoreTracker.PIECE_VALUES.get(piece_type, 0)`. -/
def pieceValue (c : Char) : Nat :=
  if c = 'P' then 1
  else if c = 'N' then 3
  else if c = 'B' then 3
  else if c = 'R' then 5
  else if c = 'Q' then 9
  else if c = 'K' then 0
  else 0

/-- `ScoreTracker.on_piece_captured`, applied to the event's `piece_type`
payload (the captured piece's id). -/
def onPieceCaptured (st : ScoreState) (capturedId : String) : ScoreState :=
  if capturedId.length < 2 then st
  else
    let t := capturedId.data.getD 0 ' '
    let c := capturedId.data.getD 1 ' '
    let v := pieceValue t
    if c = 'W' then
      { st with blackScore := st.blackScore + v,
                capturedB := st.capturedB ++ [capturedId] }
    else if c = 'B' then
      { st with whiteScore := st.whiteScore + v,
                capturedW := st.capturedW ++ [capturedId] }
    else st

/-! ### Lemmas about winner selection -/

/-- The fold underlying `maxByStart` returns the seed or a list member. -/
lemma maxFold_mem (ps : List Piece) :
    ∀ p : Piece,
      ps.foldl (fun best q => if best.startMs < q.startMs then q else best) p = p ∨
      ps.foldl (fun best q => if best.startMs < q.startMs then q else best) p ∈ ps := by
  induction ps with
  | nil => intro p; exact Or.inl rfl
  | cons q qs ih =>
      intro p
      simp only [List.foldl_cons]
      rcases ih (if p.startMs < q.startMs then q else p) with h | h
      · rw [h]
        by_cases hlt : p.startMs < q.startMs
        · simp [hlt]
        · simp [hlt]
      · exact Or.inr (List.mem_cons_of_mem _ h)

/-- The fold underlying `maxByStart` never decreases the seed's key. -/
lemma maxFold_ge_seed (ps : List Piece) :
    ∀ p : Piece,
      p.startMs ≤
        (ps.foldl (fun best q => if best.startMs < q.startMs then q else best) p).startMs := by
  induction ps with
  | nil => intro p; exact le_refl _
  | cons q qs ih =>
      intro p
      simp only [List.foldl_cons]
      by_cases hlt : p.startMs < q.startMs
      · simpa [hlt] using le_trans (le_of_lt hlt) (ih q)
      · simpa [hlt] using ih p

/-- The fold underlying `maxByStart` dominates every list member's key. -/
lemma maxFold_ge_mem (ps : List Piece) :
    ∀ p : Piece, ∀ r ∈ ps,
      r.startMs ≤
        (ps.foldl (fun best q => if best.startMs < q.startMs then q else best) p).startMs := by
  induction ps with
  | nil => intro p r hr; cases hr
  | cons q qs ih =>
      intro p r hr
      simp only [List.foldl_cons]
      rcases List.mem_cons.mp hr with h | h
      · subst h
        by_cases hlt : p.startMs < r.startMs
        · simpa [hlt] using maxFold_ge_seed qs r
        · have hqp : r.startMs ≤ p.startMs := le_of_not_lt hlt
          simpa [hlt] using le_trans hqp (maxFold_ge_seed qs p)
      · by_cases hlt : p.startMs < q.startMs
        · simpa [hlt] using ih q r h
        · simpa [hlt] using ih p r h

/-- `maxByStart` of a non-empty list returns a member that dominates
every member's start timestamp. -/
lemma maxByStart_spec (l : List Piece) (hne : l ≠ []) :
    ∃ w, maxByStart l = some w ∧ w ∈ l ∧ ∀ r ∈ l, r.startMs ≤ w.startMs := by
  cases l with
  | nil => exact absurd rfl hne
  | cons p ps =>
      refine ⟨_, rfl, ?_, ?_⟩
      · rcases maxFold_mem ps p with h | h
        · rw [h]; exact List.mem_cons_self _ _
        · exact List.mem_cons_of_mem _ h
      · intro r hr
        rcases List.mem_cons.mp hr with h | h
        · subst h; exact maxFold_ge_seed ps r
        · exact maxFold_ge_mem ps p r h

/-- When the attacker pool is non-empty, `selectWinner` is `maxByStart`
of the attacker pool. -/
lemma selectWinner_of_attackers (plist : List Piece)
    (hatt : plist.filter isAttacker ≠ []) :
    selectWinner plist = maxByStart (plist.filter isAttacker) := by
  unfold selectWinner
  have : (plist.filter isAttacker).isEmpty = false := by
    cases h : plist.filter isAttacker with
    | nil => exact absurd h hatt
    | cons a l => simp
  simp [this]

/-! ### Single-cell collision resolution -/

/-- When all pieces sit at one cell, the rebuilt occupancy index has that
single cell as its only key. -/
lemma cellsOf_const (cell : Cell) :
    ∀ (plist : List Piece), plist ≠ [] → (∀ p ∈ plist, p.cell = cell) →
      cellsOf plist = [cell] := by
  have step : ∀ (ps : List Piece), (∀ p ∈ ps, p.cell = cell) →
      ps.foldl (fun acc p => if acc.contains p.cell then acc else acc ++ [p.cell]) [cell]
        = [cell] := by
    intro ps
    induction ps with
    | nil => intro _; rfl
    | cons q qs ih =>
        intro hall
        have hq : q.cell = cell := hall q (List.mem_cons_self _ _)
        have : ([cell].contains q.cell) = true := by simp [hq, List.contains]
        simp only [List.foldl_cons, this, if_pos]
        exact ih fun p hp => hall p (List.mem_cons_of_mem _ hp)
  intro plist hne hall
  cases plist with
  | nil => exact absurd rfl hne
  | cons p ps =>
      have hp : p.cell = cell := hall p (List.mem_cons_self _ _)
      unfold cellsOf
      simp only [List.foldl_cons, List.contains, List.elem_nil, if_neg, Bool.false_eq_true,
        not_false_iff, List.nil_append]
      rw [hp]
      exact step ps fun q hq => hall q (List.mem_cons_of_mem _ hq)

/-- When all pieces sit at one cell, that cell's occupant list is the whole
piece list. -/
lemma occupants_const (cell : Cell) (plist : List Piece)
    (hall : ∀ p ∈ plist, p.cell = cell) : occupants plist cell = plist :=
  List.filter_eq_self.mpr fun p hp => by simp [hall p hp]

/-- `resolveCollisions` on a state whose pieces all share one cell reduces to
the resolution of that single cell. -/
lemma resolveCollisions_single (st : GameState) (cell : Cell)
    (hne : st.pieces ≠ []) (hall : ∀ p ∈ st.pieces, p.cell = cell) :
    resolveCollisions st =
      match resolveCell st.prevPositions cell st.pieces with
      | none => (st, [])
      | some (_, caps, evs) =>
          ({ st with pieces := removeCaptured st.pieces caps }, evs) := by
  unfold resolveCollisions
  rw [cellsOf_const cell st.pieces hne hall]
  simp only [List.foldl_cons, List.foldl_nil, occupants_const cell st.pieces hall]
  cases h : resolveCell st.prevPositions cell st.pieces with
  | none => simp
  | some res => rcases res with ⟨w, caps, evs⟩; simp

/-- A passing-through knight is never an attacker. -/
lemma isAttacker_eq_false_of_passing (p : Piece) (h : isPassingKnight p = true) :
    isAttacker p = false := by
  unfold isPassingKnight at h
  unfold isAttacker
  simp only [Bool.and_eq_true, Bool.not_eq_true'] at h
  obtain ⟨⟨hj, hc⟩, hl⟩ := h
  simp [hj, hc, hl]

/-- The winner selected for a cell is never a passing-through knight. -/
lemma selectWinner_not_passing (plist : List Piece) (w : Piece)
    (hw : selectWinner plist = some w) : isPassingKnight w = false := by
  unfold selectWinner at hw
  by_cases h1 : (plist.filter isAttacker).isEmpty
  · simp only [h1, if_true] at hw
    by_cases h2 : (plist.filter (fun p => !(isPassingKnight p))).isEmpty
    · simp only [h2, Bool.not_true, Bool.false_eq_true, if_false] at hw
      by_cases h3 : (plist.filter isPassingKnight).isEmpty
      · exfalso
        have hnil : plist = [] := by
          cases plist with
          | nil => rfl
          | cons q qs =>
              exfalso
              rcases hpass : isPassingKnight q with hf | ht
              · have : q ∈ List.filter (fun p => !(isPassingKnight p)) (q :: qs) :=
                  List.mem_filter.mpr ⟨List.mem_cons_self _ _, by simp [hpass]⟩
                rw [List.isEmpty_iff.mp h2] at this
                cases this
              · have : q ∈ List.filter isPassingKnight (q :: qs) :=
                  List.mem_filter.mpr ⟨List.mem_cons_self _ _, by simp [hpass]⟩
                rw [List.isEmpty_iff.mp h3] at this
                cases this
        rw [hnil] at hw
        simp [maxByStart] at hw
      · have : (plist.filter isPassingKnight).isEmpty = false :=
          Bool.not_eq_true _ ▸ by simpa using h3
        simp [this] at hw
    · simp only [h2, Bool.not_false, if_true] at hw
      have hne : plist.filter (fun p => !(isPassingKnight p)) ≠ [] :=
        fun hnil => h2 (by rw [hnil]; rfl)
      obtain ⟨w', hmax, hmem, _⟩ := maxByStart_spec _ hne
      rw [hmax] at hw
      rw [Option.some_inj.mp hw] at hmem
      simpa using (List.mem_filter.mp hmem).2
  · simp only [h1, Bool.false_eq_true, if_false] at hw
    have hne : plist.filter isAttacker ≠ [] := fun hnil => h1 (by rw [hnil]; rfl)
    obtain ⟨w', hmax, hmem, _⟩ := maxByStart_spec _ hne
    rw [hmax] at hw
    rw [Option.some_inj.mp hw] at hmem
    have hatt : isAttacker w = true := (List.mem_filter.mp hmem).2
    rcases hpass : isPassingKnight w with hf | ht
    · rfl
    · rw [isAttacker_eq_false_of_passing w hpass] at hatt
      cases hatt

/-! ### Claim theorems -/

/-- C1: for a board cell holding at least two occupants at
collision-resolution time with a non-empty attacker set (occupants whose
state reports `can_capture()`, knights only counting at their landing cell),
the winner is the attacker with the numerically greatest physics
start-timestamp, and every other occupant that reports `can_be_captured()`,
is not a mid-jump pass-through knight, and belongs to the opposing side is
removed from the live piece collection, with exactly one `PIECE_CAPTURED`
event per captured piece carrying the captured id, the winner's id, the
winner's previous cell, and the cell of capture. -/
theorem C1_latest_attacker_wins_and_captures
    (st : GameState) (cell : Cell) (w : Piece)
    (hcell : ∀ p ∈ st.pieces, p.cell = cell)
    (hlen : 2 ≤ st.pieces.length)
    (hatt : st.pieces.filter isAttacker ≠ [])
    (hnd : ((st.pieces.filter isAttacker).map Piece.startMs).Nodup)
    (hw : selectWinner st.pieces = some w) :
    w ∈ st.pieces.filter isAttacker ∧
    (∀ a ∈ st.pieces.filter isAttacker, a.startMs ≤ w.startMs) ∧
    (∀ a ∈ st.pieces.filter isAttacker, a ≠ w → a.startMs < w.startMs) ∧
    (∀ p ∈ st.pieces,
      p ∈ capturedAt w st.pieces ↔
        (p.id ≠ w.id ∧ isPassingKnight p = false ∧ p.canBeCaptured = true ∧
          sideOf p.id ≠ sideOf w.id)) ∧
    resolveCollisions st =
      ({ st with pieces := removeCaptured st.pieces (capturedAt w st.pieces) },
        (capturedAt w st.pieces).map
          (fun c => ⟨c.id, w.id, lookupPos st.prevPositions w.id, cell⟩)) := by
  obtain ⟨w', hmax, hmem, hge⟩ := maxByStart_spec (st.pieces.filter isAttacker) hatt
  rw [selectWinner_of_attackers st.pieces hatt, hmax, Option.some_inj] at hw
  subst hw
  refine ⟨hmem, hge, ?_, ?_, ?_⟩
  · intro a ha hne
    rcases lt_or_eq_of_le (hge a ha) with hlt | heq
    · exact hlt
    · exact absurd (List.inj_on_of_nodup_map hnd ha hmem heq) hne
  · intro p hp
    simp only [capturedAt, List.mem_filter, hp, true_and, Bool.and_eq_true,
      bne_iff_ne, ne_eq, Bool.not_eq_true']
    tauto
  · have hne : st.pieces ≠ [] := by
      intro h; rw [h] at hlen; exact absurd hlen (by simp)
    rw [resolveCollisions_single st cell hne hcell]
    have hlt : ¬(st.pieces.length < 2) := Nat.not_lt.mpr hlen
    have hsel : selectWinner st.pieces = some w' := by
      rw [selectWinner_of_attackers st.pieces hatt]; exact hmax
    simp only [resolveCell, if_neg hlt, hsel]

/-- Concrete occupants for the witness: two opposing pawns arriving at
`(4, 4)`, the black one more recently (spec Scenario B). -/
def pawnW2 : Piece := ⟨"PW2", true, true, false, false, false, 100, (4, 4)⟩

/-- The more recently started black pawn of the witness scenario. -/
def pawnB2 : Piece := ⟨"PB2", true, true, false, false, false, 200, (4, 4)⟩

/-- The witness game state: both pawns co-located at `(4, 4)`. -/
def stScenarioB : GameState :=
  ⟨[pawnW2, pawnB2], [("PW2", pawnW2), ("PB2", pawnB2)], [], [], [], false, false⟩

/-- Witness for C1 at Scenario B: `PB2` (start 200) wins over `PW2`
(start 100), `PW2` is captured and removed, and exactly one
`PIECE_CAPTURED` event is published. -/
theorem C1_witness :
    pawnB2 ∈ stScenarioB.pieces.filter isAttacker ∧
    (∀ a ∈ stScenarioB.pieces.filter isAttacker, a.startMs ≤ pawnB2.startMs) ∧
    (∀ a ∈ stScenarioB.pieces.filter isAttacker, a ≠ pawnB2 →
      a.startMs < pawnB2.startMs) ∧
    (∀ p ∈ stScenarioB.pieces,
      p ∈ capturedAt pawnB2 stScenarioB.pieces ↔
        (p.id ≠ pawnB2.id ∧ isPassingKnight p = false ∧ p.canBeCaptured = true ∧
          sideOf p.id ≠ sideOf pawnB2.id)) ∧
    resolveCollisions stScenarioB =
      ({ stScenarioB with
          pieces := removeCaptured stScenarioB.pieces
            (capturedAt pawnB2 stScenarioB.pieces) },
        (capturedAt pawnB2 stScenarioB.pieces).map
          (fun c => ⟨c.id, pawnB2.id, lookupPos stScenarioB.prevPositions pawnB2.id,
            (4, 4)⟩)) :=
  C1_latest_attacker_wins_and_captures stScenarioB (4, 4) pawnB2
    (by decide) (by decide) (by decide) (by decide) (by decide)

/-- C2: a knight mid-jump that is not at its landing cell is never selected
as winner and never captured where it transiently stands, so a knight jump
passing over an occupied intermediate cell produces zero `PIECE_CAPTURED`
events for that cell's occupants; a cell whose only occupants are
passing-through knights yields no winner and no capture for the tick; and a
knight at its landing cell co-located with exactly one capturable,
non-attacking enemy piece produces exactly one `PIECE_CAPTURED` event. -/
theorem C2_passing_knight_immunity :
    (∀ (plist : List Piece) (w : Piece), selectWinner plist = some w →
        isPassingKnight w = false) ∧
    (∀ (w k : Piece) (plist : List Piece), isPassingKnight k = true →
        k ∉ capturedAt w plist) ∧
    (∀ (prev : List (String × Cell)) (cell : Cell) (plist : List Piece)
        (w : Piece) (caps : List Piece) (evs : List CaptureEvent),
        resolveCell prev cell plist = some (w, caps, evs) →
        (plist.map Piece.id).Nodup →
        ∀ k ∈ plist, isPassingKnight k = true → ∀ e ∈ evs, e.pieceType ≠ k.id) ∧
    (∀ (prev : List (String × Cell)) (cell : Cell) (plist : List Piece),
        (∀ p ∈ plist, isPassingKnight p = true) →
        resolveCell prev cell plist = none) ∧
    (∀ (prev : List (String × Cell)) (cell : Cell) (n e : Piece),
        n.canCapture = true → n.isKnightJump = true → n.hasCCA = true →
        n.atLanding = true →
        isAttacker e = false → isPassingKnight e = false →
        e.canBeCaptured = true → sideOf e.id ≠ sideOf n.id → e.id ≠ n.id →
        resolveCell prev cell [n, e] =
          some (n, [e], [⟨e.id, n.id, lookupPos prev n.id, cell⟩])) := by
  have hcapnot : ∀ (w k : Piece) (plist : List Piece), isPassingKnight k = true →
      k ∉ capturedAt w plist := by
    intro w k plist hk hmem
    have := (List.mem_filter.mp hmem).2
    simp only [Bool.and_eq_true, Bool.not_eq_true'] at this
    rw [hk] at this
    exact absurd this.1.1.2 (by simp)
  refine ⟨fun plist w hw => selectWinner_not_passing plist w hw, hcapnot, ?_, ?_, ?_⟩
  · intro prev cell plist w caps evs hres hnd k hkmem hk e hev
    unfold resolveCell at hres
    by_cases hlen : plist.length < 2
    · simp [hlen] at hres
    · simp only [if_neg hlen] at hres
      cases hsel : selectWinner plist with
      | none => rw [hsel] at hres; cases hres
      | some w' =>
          rw [hsel] at hres
          simp only [Option.some_inj, Prod.mk.injEq] at hres
          obtain ⟨hw, hcaps, hevs⟩ := hres
          subst hw hcaps hevs
          obtain ⟨c, hcmem, hce⟩ := List.mem_map.mp hev
          intro heq
          have hcid : c.id = k.id := by rw [← hce] at heq; exact heq
          have hcp : c ∈ plist := (List.mem_filter.mp hcmem).1
          have : c = k := List.inj_on_of_nodup_map hnd hcp hkmem hcid
          rw [this] at hcmem
          exact hcapnot w' k plist hk hcmem
  · intro prev cell plist hall
    unfold resolveCell
    by_cases hlen : plist.length < 2
    · simp [hlen]
    · simp only [if_neg hlen]
      have hne : plist ≠ [] := by
        intro h; rw [h] at hlen; exact hlen (by simp)
      have hattnil : plist.filter isAttacker = [] :=
        List.filter_eq_nil_iff.mpr fun p hp => by
          simp [isAttacker_eq_false_of_passing p (hall p hp)]
      have hnknil : plist.filter (fun p => !(isPassingKnight p)) = [] :=
        List.filter_eq_nil_iff.mpr fun p hp => by simp [hall p hp]
      have hpassne : (plist.filter isPassingKnight).isEmpty = false := by
        cases plist with
        | nil => exact absurd rfl hne
        | cons q qs =>
            have : q ∈ List.filter isPassingKnight (q :: qs) :=
              List.mem_filter.mpr ⟨List.mem_cons_self _ _, hall q (List.mem_cons_self _ _)⟩
            cases hfe : List.filter isPassingKnight (q :: qs) with
            | nil => rw [hfe] at this; cases this
            | cons a l => rfl
      unfold selectWinner
      simp [hattnil, hnknil, hpassne]
  · intro prev cell n e hc hj hcca hland hea hep hbc hside hid
    have hna : isAttacker n = true := by simp [isAttacker, hc, hj, hcca, hland]
    have hnp : isPassingKnight n = false := by simp [isPassingKnight, hland]
    have hatt : List.filter isAttacker [n, e] = [n] := by
      simp [List.filter, hna, hea]
    have hsel : selectWinner [n, e] = some n := by
      unfold selectWinner
      rw [hatt]
      simp [maxByStart]
    have hcap : capturedAt n [n, e] = [e] := by
      unfold capturedAt
      simp only [List.filter]
      have h1 : (n.id != n.id && !(isPassingKnight n) && n.canBeCaptured &&
          sideOf n.id != sideOf n.id) = false := by simp
      have h2 : (e.id != n.id && !(isPassingKnight e) && e.canBeCaptured &&
          sideOf e.id != sideOf n.id) = true := by
        simp [hid, hep, hbc, hside]
      rw [h1, h2]
    unfold resolveCell
    simp only [List.length, Nat.not_lt.mpr (le_refl 2), if_neg, hsel, hcap]
    simp

/-- A passing-through knight used by the C2 witness. -/
def passKnight1 : Piece := ⟨"NW1", true, true, true, true, false, 50, (2, 2)⟩

/-- A second passing-through knight used by the C2 witness. -/
def passKnight2 : Piece := ⟨"NB1", true, true, true, true, false, 60, (2, 2)⟩

/-- A knight resting at its landing cell, used by the C2 witness. -/
def landKnight : Piece := ⟨"NW2", true, true, true, true, true, 70, (5, 5)⟩

/-- A capturable resting black pawn, used by the C2 witness. -/
def restingPawn : Piece := ⟨"PB7", false, true, false, false, false, 10, (5, 5)⟩

/-- Witness for C2: a cell occupied only by two passing-through knights is
left unresolved, a passing-through knight is never in any capture list, and
a knight at its landing cell sharing a cell with one capturable enemy pawn
produces exactly one `PIECE_CAPTURED` event. -/
theorem C2_witness :
    resolveCell [] (2, 2) [passKnight1, passKnight2] = none ∧
    passKnight1 ∉ capturedAt passKnight2 [passKnight1, passKnight2] ∧
    resolveCell [] (5, 5) [landKnight, restingPawn] =
      some (landKnight, [restingPawn],
        [⟨restingPawn.id, landKnight.id, (0, 0), (5, 5)⟩]) :=
  ⟨C2_passing_knight_immunity.2.2.2.1 [] (2, 2) [passKnight1, passKnight2]
      (by decide),
    C2_passing_knight_immunity.2.1 passKnight2 passKnight1
      [passKnight1, passKnight2] (by decide),
    C2_passing_knight_immunity.2.2.2.2 [] (5, 5) landKnight restingPawn
      (by decide) (by decide) (by decide) (by decide) (by decide) (by decide)
      (by decide) (by decide) (by decide)⟩

/-! ### Validation lemmas (C7) -/

/-- An id with prefix `"KB"` does not have prefix `"KW"`. -/
lemma strStarts_KB_not_KW (s : String) (h : strStarts s "KB" = true) :
    strStarts s "KW" = false := by
  unfold strStarts at h ⊢
  rw [List.isPrefixOf_iff_prefix] at h
  obtain ⟨t, ht⟩ := h
  rw [← ht]
  show (['K', 'W'].isPrefixOf (['K', 'B'] ++ t)) = false
  simp [List.isPrefixOf]

/-- A missing white king forces validation to fail. -/
lemma validateAux_false_no_kw :
    ∀ (ps : List Piece) (seen : List (Cell × Char)) (hb : Bool),
      (∀ p ∈ ps, strStarts p.id "KW" = false) →
      validateAux ps seen false hb = false := by
  intro ps
  induction ps with
  | nil => intro seen hb _; rfl
  | cons p ps ih =>
      intro seen hb hno
      have hp : strStarts p.id "KW" = false := hno p (List.mem_cons_self _ _)
      unfold validateAux
      simp only [hp, Bool.or_false]
      cases hfind : seen.find? (fun e => e.1 == p.cell) with
      | some e =>
          by_cases heq : e.2 == sideOf p.id
          · simp [heq]
          · simp only [heq, if_neg, Bool.false_eq_true]
            exact ih seen _ fun q hq => hno q (List.mem_cons_of_mem _ hq)
      | none =>
          exact ih _ _ fun q hq => hno q (List.mem_cons_of_mem _ hq)

/-- A missing black king forces validation to fail. -/
lemma validateAux_false_no_kb :
    ∀ (ps : List Piece) (seen : List (Cell × Char)) (hw : Bool),
      (∀ p ∈ ps, strStarts p.id "KB" = false) →
      validateAux ps seen hw false = false := by
  intro ps
  induction ps with
  | nil => intro seen hw _; simp [validateAux]
  | cons p ps ih =>
      intro seen hw hno
      have hp : strStarts p.id "KB" = false := hno p (List.mem_cons_self _ _)
      unfold validateAux
      simp only [hp, Bool.and_false, Bool.or_false]
      cases hfind : seen.find? (fun e => e.1 == p.cell) with
      | some e =>
          by_cases heq : e.2 == sideOf p.id
          · simp [heq]
          · simp only [heq, if_neg, Bool.false_eq_true]
            exact ih seen _ fun q hq => hno q (List.mem_cons_of_mem _ hq)
      | none =>
          exact ih _ _ fun q hq => hno q (List.mem_cons_of_mem _ hq)

/-- When no piece clashes with the recorded first occupant of its cell and
no two listed pieces of the same side share a cell, validation computes the
conjunction of the two king-presence flags. -/
lemma validateAux_value :
    ∀ (ps : List Piece) (seen : List (Cell × Char)) (hw hb : Bool),
      (∀ p ∈ ps, ∀ e ∈ seen, e.1 = p.cell → e.2 ≠ sideOf p.id) →
      ps.Pairwise (fun p q => p.cell = q.cell → sideOf p.id ≠ sideOf q.id) →
      validateAux ps seen hw hb =
        ((hw || ps.any (fun p => strStarts p.id "KW")) &&
          (hb || ps.any (fun p => !(strStarts p.id "KW") && strStarts p.id "KB"))) := by
  intro ps
  induction ps with
  | nil => intro seen hw hb _ _; simp [validateAux]
  | cons p ps ih =>
      intro seen hw hb hseen hpair
      obtain ⟨hrel, htail⟩ := List.pairwise_cons.mp hpair
      unfold validateAux
      cases hfind : seen.find? (fun e => e.1 == p.cell) with
      | some e =>
          have hmem : e ∈ seen := List.mem_of_find?_eq_some hfind
          have hcell : e.1 = p.cell := by
            have := List.find?_some hfind
            exact beq_iff_eq.mp this
          have hne : e.2 ≠ sideOf p.id :=
            hseen p (List.mem_cons_self _ _) e hmem hcell
          have : (e.2 == sideOf p.id) = false := beq_eq_false_iff_ne.mpr hne
          simp only [this, Bool.false_eq_true, if_neg]
          rw [ih seen _ _ (fun q hq => hseen q (List.mem_cons_of_mem _ hq)) htail]
          simp [List.any_cons, Bool.or_assoc]
      | none =>
          dsimp only
          rw [ih ((p.cell, sideOf p.id) :: seen) _ _ ?_ htail]
          · simp [List.any_cons, Bool.or_assoc]
          · intro q hq e he hcell
            rcases List.mem_cons.mp he with he1 | he2
            · subst he1
              exact hrel q hq hcell
            · exact hseen q (List.mem_cons_of_mem _ hq) e he2 hcell

/-- C7 (amended): construction fails whenever a king is missing, and
succeeds whenever both kings are present and no two listed pieces of the
same side share a cell; the same-side-overlap rejection, however, only
fires against the first-listed occupant of a cell (see
`C7_counterexample`). -/
theorem C7_construction_validation (pieces : List Piece) :
    ((∀ p ∈ pieces, strStarts p.id "KW" = false) → gameInit pieces = none) ∧
    ((∀ p ∈ pieces, strStarts p.id "KB" = false) → gameInit pieces = none) ∧
    ((∃ p ∈ pieces, strStarts p.id "KW" = true) →
      (∃ p ∈ pieces, strStarts p.id "KB" = true) →
      pieces.Pairwise (fun p q => p.cell = q.cell → sideOf p.id ≠ sideOf q.id) →
      gameInit pieces =
        some ⟨pieces, pieces.map (fun p => (p.id, p)), [], [], [], false, false⟩) := by
  refine ⟨?_, ?_, ?_⟩
  · intro hno
    have : validate pieces = false := validateAux_false_no_kw pieces [] false hno
    simp [gameInit, this]
  · intro hno
    have : validate pieces = false := validateAux_false_no_kb pieces [] false hno
    simp [gameInit, this]
  · intro hkw hkb hpair
    have hval : validate pieces = true := by
      unfold validate
      rw [validateAux_value pieces [] false false (by intro p _ e he; cases he) hpair]
      obtain ⟨pw, hpwm, hpw⟩ := hkw
      obtain ⟨pb, hpbm, hpb⟩ := hkb
      have h1 : pieces.any (fun p => strStarts p.id "KW") = true :=
        List.any_eq_true.mpr ⟨pw, hpwm, hpw⟩
      have h2 : pieces.any (fun p => !(strStarts p.id "KW") && strStarts p.id "KB") = true :=
        List.any_eq_true.mpr ⟨pb, hpbm, by
          simp [strStarts_KB_not_KW pb.id hpb, hpb]⟩
      simp [h1, h2]
    simp [gameInit, hval]

/-- The white king of the C7 examples. -/
def kingW : Piece := ⟨"KW1", false, true, false, false, false, 0, (0, 0)⟩

/-- The black king of the C7 examples. -/
def kingB : Piece := ⟨"KB1", false, true, false, false, false, 0, (7, 7)⟩

/-- A white pawn listed first at the contested cell `(2, 2)`. -/
def overlapPW : Piece := ⟨"PW9", false, true, false, false, false, 0, (2, 2)⟩

/-- The first of two black pawns sharing cell `(2, 2)`. -/
def overlapPB1 : Piece := ⟨"PB8", false, true, false, false, false, 0, (2, 2)⟩

/-- The second of two black pawns sharing cell `(2, 2)`. -/
def overlapPB2 : Piece := ⟨"PB9", false, true, false, false, false, 0, (2, 2)⟩

/-- Counterexample to C7 as stated: this placement has two same-side pieces
(`PB8`, `PB9`) on the same cell `(2, 2)`, yet validation accepts it and
construction succeeds, because the check only compares each piece against
the first-listed occupant of the cell (here the white pawn `PW9`). -/
theorem C7_counterexample :
    overlapPB1.cell = overlapPB2.cell ∧
    sideOf overlapPB1.id = sideOf overlapPB2.id ∧
    validate [kingW, kingB, overlapPW, overlapPB1, overlapPB2] = true ∧
    (gameInit [kingW, kingB, overlapPW, overlapPB1, overlapPB2]).isSome = true := by
  refine ⟨rfl, rfl, by decide, ?_⟩
  have : validate [kingW, kingB, overlapPW, overlapPB1, overlapPB2] = true := by decide
  simp [gameInit, this]

/-- Witness for C7: a two-kings-only placement on distinct cells validates
and constructs; removing the white king fails construction. -/
theorem C7_witness :
    gameInit [kingW, kingB] =
      some ⟨[kingW, kingB], [("KW1", kingW), ("KB1", kingB)], [], [], [], false, false⟩ ∧
    gameInit [kingB] = none := by
  constructor
  · have h := (C7_construction_validation [kingW, kingB]).2.2
      ⟨kingW, by decide, by decide⟩ ⟨kingB, by decide, by decide⟩
      (by decide)
    simpa using h
  · exact (C7_construction_validation [kingB]).1 (by decide)

/-! ### Collision resolution and the id lookup (C4) -/

/-- Collision resolution leaves the id-to-piece lookup (and every field but
`pieces`) untouched, and only ever removes pieces from the live collection. -/
lemma resolveCollisions_skeleton (st : GameState) :
    (resolveCollisions st).1.pieceById = st.pieceById ∧
    (resolveCollisions st).1.promotedPawns = st.promotedPawns ∧
    (∀ p ∈ (resolveCollisions st).1.pieces, p ∈ st.pieces) := by
  unfold resolveCollisions
  suffices h : ∀ (cells : List Cell) (acc : GameState × List CaptureEvent),
      ((cells.foldl
        (fun acc cell =>
          match resolveCell st.prevPositions cell (occupants st.pieces cell) with
          | none => acc
          | some (_, caps, evs) =>
              ({ acc.1 with pieces := removeCaptured acc.1.pieces caps },
                acc.2 ++ evs))
        acc).1.pieceById = acc.1.pieceById ∧
      (cells.foldl
        (fun acc cell =>
          match resolveCell st.prevPositions cell (occupants st.pieces cell) with
          | none => acc
          | some (_, caps, evs) =>
              ({ acc.1 with pieces := removeCaptured acc.1.pieces caps },
                acc.2 ++ evs))
        acc).1.promotedPawns = acc.1.promotedPawns ∧
      ∀ p ∈ (cells.foldl
        (fun acc cell =>
          match resolveCell st.prevPositions cell (occupants st.pieces cell) with
          | none => acc
          | some (_, caps, evs) =>
              ({ acc.1 with pieces := removeCaptured acc.1.pieces caps },
                acc.2 ++ evs))
        acc).1.pieces, p ∈ acc.1.pieces) by
    exact h (cellsOf st.pieces) (st, [])
  intro cells
  induction cells with
  | nil => intro acc; exact ⟨rfl, rfl, fun p hp => hp⟩
  | cons c cs ih =>
      intro acc
      simp only [List.foldl_cons]
      cases hres : resolveCell st.prevPositions c (occupants st.pieces c) with
      | none => exact ih acc
      | some res =>
          rcases res with ⟨w, caps, evs⟩
          obtain ⟨h1, h2, h3⟩ :=
            ih ({ acc.1 with pieces := removeCaptured acc.1.pieces caps },
              acc.2 ++ evs)
          exact ⟨h1, h2, fun p hp => List.mem_of_mem_filter (h3 p hp)⟩

/-- C4 (amended): after collision resolution, every live piece's id is still
a key of the id-to-piece lookup, but the lookup itself is left wholly
untouched — a captured piece is removed only from the live piece collection
(and hence from the occupancy index), while its id remains a key of the
lookup (see `C4_counterexample`). -/
theorem C4_occupancy_lookup_sync
    (st : GameState)
    (hsub : ∀ p ∈ st.pieces, p.id ∈ keys st.pieceById) :
    (resolveCollisions st).1.pieceById = st.pieceById ∧
    (∀ cell : Cell, ∀ p ∈ occupants (resolveCollisions st).1.pieces cell,
      p.id ∈ keys (resolveCollisions st).1.pieceById) := by
  obtain ⟨h1, _, h3⟩ := resolveCollisions_skeleton st
  refine ⟨h1, fun cell p hp => ?_⟩
  rw [h1]
  exact hsub p (h3 p (List.mem_of_mem_filter hp))

/-- The white pawn captured in the C4 counterexample state. -/
def capPW : Piece := ⟨"PW3", true, true, false, false, false, 100, (4, 4)⟩

/-- The black pawn surviving in the C4 counterexample state. -/
def capPB : Piece := ⟨"PB3", true, true, false, false, false, 200, (4, 4)⟩

/-- The C4 counterexample state: two opposing pawns on one cell. -/
def stCapture : GameState :=
  ⟨[capPW, capPB], [("PW3", capPW), ("PB3", capPB)], [], [], [], false, false⟩

/-- Counterexample to C4 as stated: after resolving the collision, `PW3` has
been captured — it appears in no cell's occupant list — yet `"PW3"` is still
a key of the id-to-piece lookup: capture does not remove the id from both
structures. -/
theorem C4_counterexample :
    (∀ p ∈ (resolveCollisions stCapture).1.pieces, p.id ≠ "PW3") ∧
    "PW3" ∈ keys (resolveCollisions stCapture).1.pieceById := by decide

/-- Witness for C4 (amended) at the concrete capture state: the lookup is
untouched and the surviving occupants' ids are all lookup keys. -/
theorem C4_witness :
    (resolveCollisions stCapture).1.pieceById = stCapture.pieceById ∧
    (∀ cell : Cell, ∀ p ∈ occupants (resolveCollisions stCapture).1.pieces cell,
      p.id ∈ keys (resolveCollisions stCapture).1.pieceById) :=
  C4_occupancy_lookup_sync stCapture (by decide)

/-! ### GAME_ENDED emission lemmas (C5) -/

/-- Once `_win_announced` is set, the loop's win check emits nothing. -/
lemma checkAndAnnounceWin_announced (t : List Piece) :
    checkAndAnnounceWin true t = (true, []) := by
  unfold checkAndAnnounceWin
  by_cases h : isWin t <;> simp [h]

/-- On a win-free tick the win check emits nothing and keeps the flag. -/
lemma checkAndAnnounceWin_no_win (ann : Bool) (t : List Piece)
    (h : isWin t = false) : checkAndAnnounceWin ann t = (ann, []) := by
  unfold checkAndAnnounceWin
  simp [h]

/-- Once `_win_announced` is set, the rest of the loop emits nothing. -/
lemma runLoopWin_announced (ts : List (List Piece)) :
    runLoopWin true ts = (true, []) := by
  induction ts with
  | nil => rfl
  | cons t ts ih =>
      unfold runLoopWin
      rw [checkAndAnnounceWin_announced t]
      simp [ih]

/-- On win-free ticks the loop's win check emits nothing and leaves the
flag unchanged. -/
lemma runLoopWin_no_win (ts : List (List Piece)) (ann : Bool)
    (h : ∀ t ∈ ts, isWin t = false) : runLoopWin ann ts = (ann, []) := by
  induction ts with
  | nil => rfl
  | cons t ts ih =>
      unfold runLoopWin
      rw [checkAndAnnounceWin_no_win ann t (h t (List.mem_cons_self _ _))]
      rw [ih fun u hu => h u (List.mem_cons_of_mem _ hu)]
      rfl

/-- The defining equation of `runLoopWin` on a tick. -/
lemma runLoopWin_cons (ann : Bool) (t : List Piece) (ts : List (List Piece)) :
    runLoopWin ann (t :: ts) =
      ((runLoopWin (checkAndAnnounceWin ann t).1 ts).1,
        (checkAndAnnounceWin ann t).2 ++
          (runLoopWin (checkAndAnnounceWin ann t).1 ts).2) := rfl

/-- The loop's win check appends across tick-list concatenation. -/
lemma runLoopWin_append (xs ys : List (List Piece)) (ann : Bool) :
    runLoopWin ann (xs ++ ys) =
      ((runLoopWin (runLoopWin ann xs).1 ys).1,
        (runLoopWin ann xs).2 ++ (runLoopWin (runLoopWin ann xs).1 ys).2) := by
  induction xs generalizing ann with
  | nil => simp [runLoopWin]
  | cons x xs ih =>
      simp only [List.cons_append, runLoopWin_cons, ih]
      simp [List.append_assoc]

/-- The number of `GAME_ENDED` events the loop's win check publishes. -/
lemma runLoopWin_count (ts : List (List Piece)) :
    ∀ ann : Bool,
      ((runLoopWin ann ts).2.count EvTag.gameEnded) =
        if !ann && ts.any (fun t => isWin t) then 1 else 0 := by
  induction ts with
  | nil => intro ann; simp [runLoopWin]
  | cons t ts ih =>
      intro ann
      unfold runLoopWin
      by_cases hwin : isWin t = true
      · cases ann
        · have hstep : checkAndAnnounceWin false t = (true, [EvTag.gameEnded]) := by
            unfold checkAndAnnounceWin; simp [hwin]
          rw [hstep]
          simp [runLoopWin_announced, List.count_cons, hwin]
        · rw [checkAndAnnounceWin_announced t]
          simpa using ih true
      · have hw : isWin t = false := by simpa using hwin
        rw [checkAndAnnounceWin_no_win ann t hw]
        simp [hw, ih ann]

/-- C5 (amended): within the game loop, `GAME_ENDED` is published exactly
once — on the first tick at which fewer than two king ids remain, and never
again on later ticks — but the shutdown path of `Game.run`, after the loop
exits, unconditionally publishes one additional `GAME_ENDED`, so a run whose
loop observed the win condition publishes `GAME_ENDED` twice in total. -/
theorem C5_game_ended_published
    (ticks pre post : List (List Piece)) (t : List Piece)
    (hpre : ∀ u ∈ pre, isWin u = false) (hwin : isWin t = true) :
    ((runLoopWin false ticks).2.count EvTag.gameEnded =
      if ticks.any (fun u => isWin u) then 1 else 0) ∧
    ((runEvents ticks).count EvTag.gameEnded =
      (if ticks.any (fun u => isWin u) then 1 else 0) + 1) ∧
    runLoopWin false (pre ++ t :: post) = (true, [EvTag.gameEnded]) := by
  refine ⟨by simpa using runLoopWin_count ticks false, ?_, ?_⟩
  · unfold runEvents
    simp [List.count_cons, List.count_append, runLoopWin_count ticks false]
  · rw [runLoopWin_append pre (t :: post) false,
      runLoopWin_no_win pre false hpre]
    unfold runLoopWin checkAndAnnounceWin
    simp [hwin, runLoopWin_announced]

/-- The lone-king tick of the C5 examples. -/
def loneKingTick : List Piece := [kingW]

/-- Counterexample to C5 as stated: a run whose single tick already
satisfies the win condition publishes `GAME_ENDED` twice — once from the
in-loop announcement and once more from the shutdown path — not exactly
once. -/
theorem C5_counterexample :
    (runEvents [loneKingTick]).count EvTag.gameEnded = 2 ∧
    ¬((runEvents [loneKingTick]).count EvTag.gameEnded = 1) := by decide

/-- Witness for C5 (amended) on a concrete two-tick run: the loop publishes
exactly one `GAME_ENDED`, the full run publishes one more, and the win-free
prefix publishes nothing before the first winning tick. -/
theorem C5_witness :
    ((runLoopWin false [[kingW, kingB], loneKingTick]).2.count EvTag.gameEnded =
      if [[kingW, kingB], loneKingTick].any (fun u => isWin u) then 1 else 0) ∧
    ((runEvents [[kingW, kingB], loneKingTick]).count EvTag.gameEnded =
      (if [[kingW, kingB], loneKingTick].any (fun u => isWin u) then 1 else 0) + 1) ∧
    runLoopWin false ([[kingW, kingB]] ++ loneKingTick :: []) =
      (true, [EvTag.gameEnded]) :=
  C5_game_ended_published [[kingW, kingB], loneKingTick] [[kingW, kingB]] []
    loneKingTick (by decide) (by decide)

/-! ### Command processing after the win condition (C6) -/

/-- C6 (amended): reaching the win condition does not make the game
terminal for command processing — `_process_input` never consults the
win-announced flag (processing an input in a state with the flag set or
clear yields the same result, flag aside), a command naming a live piece id
still reaches the piece's state machine and its mutation lands in the live
collection, and only an explicit `exit` command sets the exit flag that
terminates the loop. -/
theorem C6_commands_mutate_after_win
    (f : Piece → Command → Piece) (st : GameState) (cmd : Command) (b : Bool)
    (kv : String × Piece) :
    (processInput f { st with winAnnounced := b } cmd =
      { processInput f st cmd with winAnnounced := b }) ∧
    (cmd.type = "exit" → processInput f st cmd = { st with shouldExit := true }) ∧
    (cmd.type ≠ "exit" →
      st.pieceById.find? (fun e => e.1 == cmd.pieceId) = some kv →
      (processInput f st cmd).pieces =
        st.pieces.map (fun q => if q.id == kv.2.id then f kv.2 cmd else q)) := by
  refine ⟨?_, ?_, ?_⟩
  · unfold processInput
    by_cases hexit : (cmd.type == "exit") = true
    · simp [hexit]
    · simp only [hexit, Bool.false_eq_true, if_neg]
      cases hfind : st.pieceById.find? (fun e => e.1 == cmd.pieceId) with
      | none => rfl
      | some kv => rfl
  · intro hexit
    unfold processInput
    simp [hexit]
  · intro hexit hfind
    unfold processInput
    have : (cmd.type == "exit") = false := beq_eq_false_iff_ne.mpr hexit
    simp only [this, Bool.false_eq_true, if_neg, hfind]
    simp

/-- The pawn mutated after the win condition in the C6 counterexample. -/
def latePawn : Piece := ⟨"PW1", true, true, false, false, false, 0, (3, 3)⟩

/-- The C6 counterexample state: only one king remains (win condition holds)
and the win has already been announced. -/
def stAfterWin : GameState :=
  ⟨[kingW, latePawn], [("KW1", kingW), ("PW1", latePawn)], [], [], [], false, true⟩

/-- A concrete `on_command` behaviour: the piece moves to the command's
target cell. -/
def moveOnCommand : Piece → Command → Piece :=
  fun p c => { p with cell := c.params.getD 1 p.cell }

/-- The command drained after the win in the C6 counterexample. -/
def lateCmd : Command := ⟨1000, "PW1", "move", [(3, 3), (4, 3)]⟩

/-- Counterexample to C6 as stated: in a state where the win condition holds
and has been announced, a drained `move` command still mutates the named
piece's position — the `Ended` state is not terminal for piece mutation. -/
theorem C6_counterexample :
    isWin stAfterWin.pieces = true ∧
    stAfterWin.winAnnounced = true ∧
    (processInput moveOnCommand stAfterWin lateCmd).pieces =
      [kingW, { latePawn with cell := (4, 3) }] ∧
    (4, 3) ≠ latePawn.cell := by decide

/-- Witness for C6 (amended) at the concrete post-win state: processing is
independent of the win flag, `exit` only sets the exit flag, and the move
command reaches the pawn. -/
theorem C6_witness :
    (processInput moveOnCommand { stAfterWin with winAnnounced := true } lateCmd =
      { processInput moveOnCommand stAfterWin lateCmd with winAnnounced := true }) ∧
    (lateCmd.type = "exit" →
      processInput moveOnCommand stAfterWin lateCmd =
        { stAfterWin with shouldExit := true }) ∧
    (lateCmd.type ≠ "exit" →
      stAfterWin.pieceById.find? (fun e => e.1 == lateCmd.pieceId) =
        some ("PW1", latePawn) →
      (processInput moveOnCommand stAfterWin lateCmd).pieces =
        stAfterWin.pieces.map
          (fun q => if q.id == ("PW1", latePawn).2.id
            then moveOnCommand ("PW1", latePawn).2 lateCmd else q)) :=
  C6_commands_mutate_after_win moveOnCommand stAfterWin lateCmd true
    ("PW1", latePawn)

/-! ### Event bus (C8) -/

/-- One publish step: a raising handler (`run` returns `none`) leaves the
observer world unchanged. -/
lemma publish_cons {σ ε : Type} (h : Handler σ ε) (hs : List (Handler σ ε))
    (e : ε) (st : σ) :
    publish (h :: hs) e st =
      publish hs e (match h.run st e with | some s' => s' | none => st) := rfl

/-- C8: the bus invokes the handlers registered for an event's type in
registration order (head first, each seeing the effects of its
predecessors); a handler that raises is caught — the remaining handlers
still run on the unchanged world and nothing reaches the publisher — and in
particular, with an always-raising subscriber registered before a recording
subscriber, the recorder still receives every one of any sequence of
published events. -/
theorem C8_publish_fault_isolation :
    (∀ (σ ε : Type) (h : Handler σ ε) (hs : List (Handler σ ε)) (e : ε) (st : σ),
      h.run st e = none → publish (h :: hs) e st = publish hs e st) ∧
    (∀ (σ ε : Type) (h : Handler σ ε) (hs : List (Handler σ ε)) (e : ε)
        (st s' : σ),
      h.run st e = some s' → publish (h :: hs) e st = publish hs e s') ∧
    (∀ (ε : Type) (raiser : Handler (List ε) ε),
      (∀ st e, raiser.run st e = none) →
      ∀ es : List ε,
        publishAll [raiser, Handler.mk (fun log e => some (log ++ [e]))] es [] = es) := by
  refine ⟨?_, ?_, ?_⟩
  · intro σ ε h hs e st hnone
    rw [publish_cons, hnone]
  · intro σ ε h hs e st s' hsome
    rw [publish_cons, hsome]
  · intro ε raiser hraise es
    suffices hgen : ∀ (es : List ε) (log : List ε),
        publishAll [raiser, Handler.mk (fun log e => some (log ++ [e]))] es log =
          log ++ es by
      simpa using hgen es []
    intro es
    induction es with
    | nil => intro log; simp [publishAll]
    | cons e es ih =>
        intro log
        unfold publishAll
        simp only [List.foldl_cons]
        have hstep : publish [raiser, Handler.mk (fun log e => some (log ++ [e]))]
            e log = log ++ [e] := by
          rw [publish_cons, hraise log e]
          rfl
        rw [hstep]
        have := ih (log ++ [e])
        unfold publishAll at this
        rw [this, List.append_assoc]
        rfl

/-- Witness for C8: with an always-raising first subscriber over `Nat`
events, publishing the ten events `0..9` still delivers all ten to the
second, recording subscriber, and a raising head handler never blocks the
tail. -/
theorem C8_witness :
    publish ((Handler.mk (fun (_ : Nat) (_ : Nat) => none)) ::
        [Handler.mk (fun s e => some (s + e))]) 5 1 =
      publish [Handler.mk (fun s e => some (s + e))] 5 1 ∧
    publishAll
      [Handler.mk (fun (_ : List Nat) (_ : Nat) => none),
        Handler.mk (fun log e => some (log ++ [e]))]
      [0, 1, 2, 3, 4, 5, 6, 7, 8, 9] [] = [0, 1, 2, 3, 4, 5, 6, 7, 8, 9] :=
  ⟨C8_publish_fault_isolation.1 Nat Nat _ _ 5 1 rfl,
    C8_publish_fault_isolation.2.2 Nat
      (Handler.mk (fun _ _ => none)) (fun _ _ => rfl)
      [0, 1, 2, 3, 4, 5, 6, 7, 8, 9]⟩

/-! ### Score tracker (C10) -/

/-- C10: a `PIECE_CAPTURED` event whose captured id has at least two
characters credits the value of the id's first character (P=1, N=3, B=3,
R=5, Q=9, K=0, anything else 0) to the side opposing the id's second
character and appends the id to that side's captured list; a shorter id
changes nothing. -/
theorem C10_score_tracker
    (st : ScoreState) (id : String)
    (hlen : 2 ≤ id.length) :
    (∀ id' : String, id'.length < 2 → onPieceCaptured st id' = st) ∧
    (id.data.getD 1 ' ' = 'W' →
      onPieceCaptured st id =
        { st with blackScore := st.blackScore + pieceValue (id.data.getD 0 ' '),
                  capturedB := st.capturedB ++ [id] }) ∧
    (id.data.getD 1 ' ' = 'B' →
      onPieceCaptured st id =
        { st with whiteScore := st.whiteScore + pieceValue (id.data.getD 0 ' '),
                  capturedW := st.capturedW ++ [id] }) ∧
    pieceValue 'P' = 1 ∧ pieceValue 'N' = 3 ∧ pieceValue 'B' = 3 ∧
    pieceValue 'R' = 5 ∧ pieceValue 'Q' = 9 ∧ pieceValue 'K' = 0 ∧
    (∀ c : Char, c ∉ (['P', 'N', 'B', 'R', 'Q', 'K'] : List Char) →
      pieceValue c = 0) := by
  have hnotlt : ¬(id.length < 2) := Nat.not_lt.mpr hlen
  refine ⟨?_, ?_, ?_, rfl, rfl, rfl, rfl, rfl, rfl, ?_⟩
  · intro id' h
    unfold onPieceCaptured
    simp [h]
  · intro hW
    unfold onPieceCaptured
    rw [if_neg hnotlt]
    dsimp only
    rw [hW]
    simp
  · intro hB
    unfold onPieceCaptured
    rw [if_neg hnotlt]
    dsimp only
    rw [hB]
    simp
  · intro c hc
    unfold pieceValue
    simp only [List.mem_cons, List.not_mem_nil, or_false, not_or] at hc
    obtain ⟨h1, h2, h3, h4, h5, h6⟩ := hc
    simp [h1, h2, h3, h4, h5, h6]

/-- Witness for C10 at concrete events: capturing white pawn `PW2` credits
black with 1 point and records the id on black's list; capturing black
queen `QB_1` credits white with 9; a one-character id changes nothing. -/
theorem C10_witness :
    onPieceCaptured ⟨0, 0, [], []⟩ "PW2" = ⟨0, 1, [], ["PW2"]⟩ ∧
    onPieceCaptured ⟨0, 0, [], []⟩ "QB_1" = ⟨9, 0, ["QB_1"], []⟩ ∧
    onPieceCaptured ⟨3, 4, ["a"], ["b"]⟩ "P" = ⟨3, 4, ["a"], ["b"]⟩ := by
  have h1 := (C10_score_tracker ⟨0, 0, [], []⟩ "PW2" (by decide)).2.1 (by decide)
  have h2 := (C10_score_tracker ⟨0, 0, [], []⟩ "QB_1" (by decide)).2.2.1 (by decide)
  have h3 := (C10_score_tracker ⟨3, 4, ["a"], ["b"]⟩ "PW2" (by decide)).1 "P" (by decide)
  exact ⟨by simpa using h1, by simpa using h2, h3⟩

/-! ### Decimal rendering and queen-id minting lemmas (C3, C9) -/

/-- Reading a decimal digit character back to its value. -/
def parseDigit (c : Char) : Nat := c.toNat - 48

/-- Decimal valuation of a digit list. -/
def digitsVal (l : List Char) : Nat := l.foldl (fun a c => 10 * a + parseDigit c) 0

/-- `digitChar` round-trips through `parseDigit` on single digits. -/
lemma parseDigit_digitChar : ∀ n < 10, parseDigit (digitChar n) = n := by decide

/-- Valuation of a digit list extended by one digit. -/
lemma digitsVal_append_digit (l : List Char) (c : Char) :
    digitsVal (l ++ [c]) = 10 * digitsVal l + parseDigit c := by
  unfold digitsVal
  rw [List.foldl_append]
  rfl

/-- `natDigits` renders `n` faithfully: parsing it back yields `n`. -/
lemma digitsVal_natDigits : ∀ (fuel n : Nat), n < fuel →
    digitsVal (natDigits fuel n) = n := by
  intro fuel
  induction fuel with
  | zero => intro n h; exact absurd h (Nat.not_lt_zero n)
  | succ fuel ih =>
      intro n h
      unfold natDigits
      by_cases h10 : n < 10
      · rw [if_pos h10]
        have hv : digitsVal [digitChar n] = parseDigit (digitChar n) := by
          unfold digitsVal
          simp [List.foldl]
        rw [hv]
        exact parseDigit_digitChar n h10
      · rw [if_neg h10]
        rw [digitsVal_append_digit]
        have hdivlt : n / 10 < n := Nat.div_lt_self (by omega) (by omega)
        have hdiv : n / 10 < fuel := by omega
        rw [ih (n / 10) hdiv,
          parseDigit_digitChar (n % 10) (Nat.mod_lt n (by omega))]
        exact Nat.div_add_mod n 10

/-- Python's decimal rendering of naturals is injective. -/
lemma natToString_inj (m n : Nat) (h : natToString m = natToString n) : m = n := by
  have hdata : natDigits (m + 1) m = natDigits (n + 1) n := congrArg String.data h
  have hval := congrArg digitsVal hdata
  rwa [digitsVal_natDigits (m + 1) m (Nat.lt_succ_self m),
    digitsVal_natDigits (n + 1) n (Nat.lt_succ_self n)] at hval

/-- The character data of a minted queen id. -/
lemma queenIdStr_data (c : Char) (n : Nat) :
    (queenIdStr c n).data = 'Q' :: c :: '_' :: (natToString n).data := by
  unfold queenIdStr
  simp [String.data_append]

/-- Queen-id minting is injective in the number for a fixed side. -/
lemma queenIdStr_inj (c : Char) (m n : Nat)
    (h : queenIdStr c m = queenIdStr c n) : m = n := by
  have hd := congrArg String.data h
  rw [queenIdStr_data, queenIdStr_data] at hd
  simp only [List.cons.injEq, true_and] at hd
  exact natToString_inj m n (congrArg String.mk hd)

/-- A minted queen id never carries the pawn prefix `"P"`. -/
lemma queenIdStr_ne_pawn (c : Char) (n : Nat) (s : String)
    (hP : strStarts s "P" = true) : queenIdStr c n ≠ s := by
  intro h
  unfold strStarts at hP
  rw [List.isPrefixOf_iff_prefix] at hP
  obtain ⟨t, ht⟩ := hP
  have hd := congrArg String.data h
  rw [queenIdStr_data, ← ht] at hd
  have : ('Q' : Char) = 'P' := by
    have := congrArg (fun l => l.getD 0 ' ') hd
    simpa using this
  exact absurd this (by decide)

/-- The fuelled `while` search of `_promote_pawn_to_queen` finds, given that
a free number exists within the fuel, a free number that is least among
those at or above the start. -/
lemma mintFrom_spec (ks : List String) (c : Char) :
    ∀ (fuel n : Nat),
      (∃ i, i < fuel ∧ ks.contains (queenIdStr c (n + i)) = false) →
      ks.contains (queenIdStr c (mintFrom ks c fuel n)) = false ∧
      n ≤ mintFrom ks c fuel n ∧
      ∀ m, n ≤ m → m < mintFrom ks c fuel n →
        ks.contains (queenIdStr c m) = true := by
  intro fuel
  induction fuel with
  | zero =>
      intro n h
      obtain ⟨i, hi, _⟩ := h
      exact absurd hi (Nat.not_lt_zero i)
  | succ fuel ih =>
      intro n h
      unfold mintFrom
      by_cases hc : ks.contains (queenIdStr c n) = true
      · rw [if_pos hc]
        have hnext : ∃ i, i < fuel ∧ ks.contains (queenIdStr c (n + 1 + i)) = false := by
          obtain ⟨i, hi, hfree⟩ := h
          cases i with
          | zero => rw [Nat.add_zero] at hfree; rw [hc] at hfree; cases hfree
          | succ j =>
              refine ⟨j, by omega, ?_⟩
              have : n + (j + 1) = n + 1 + j := by omega
              rwa [this] at hfree
        obtain ⟨hfree, hle, hmin⟩ := ih (n + 1) hnext
        refine ⟨hfree, by omega, ?_⟩
        intro m hm hmlt
        rcases Nat.eq_or_lt_of_le hm with heq | hlt
        · rw [← heq]; exact hc
        · exact hmin m hlt hmlt
      · rw [if_neg hc]
        exact ⟨by simpa using hc, le_refl n, fun m hm hmlt => absurd (by omega) hmlt.not_le⟩

/-- Pigeonhole: among the first `ks.length + 1` candidate queen numbers,
one is not a key. -/
lemma mint_exists_free (ks : List String) (c : Char) :
    ∃ i, i < ks.length + 1 ∧ ks.contains (queenIdStr c (1 + i)) = false := by
  by_contra hall
  push_neg at hall
  have hall' : ∀ i < ks.length + 1, ks.contains (queenIdStr c (1 + i)) = true := by
    intro i hi
    have := hall i hi
    cases hcon : ks.contains (queenIdStr c (1 + i)) with
    | false => exact absurd hcon this
    | true => rfl
  set l := (List.range (ks.length + 1)).map (fun i => queenIdStr c (1 + i)) with hl
  have hnd : l.Nodup := by
    refine List.Nodup.map ?_ (List.nodup_range _)
    intro a b hab
    have := queenIdStr_inj c (1 + a) (1 + b) hab
    omega
  have hsub : ∀ x ∈ l, x ∈ ks := by
    intro x hx
    obtain ⟨i, hi, hxe⟩ := List.mem_map.mp hx
    rw [← hxe]
    exact List.elem_iff.mp (hall' i (List.mem_range.mp hi))
  have hcard : l.length ≤ ks.length := by
    have h1 : l.toFinset.card = l.length := List.toFinset_card_of_nodup hnd
    have h2 : l.toFinset ⊆ ks.toFinset := by
      intro x hx
      exact List.mem_toFinset.mpr (hsub x (List.mem_toFinset.mp hx))
    have h3 : l.toFinset.card ≤ ks.toFinset.card := Finset.card_le_card h2
    have h4 : ks.toFinset.card ≤ ks.length := List.toFinset_card_le ks
    omega
  have hlen : l.length = ks.length + 1 := by
    rw [hl, List.length_map, List.length_range]
  omega

/-- The minted queen number is fresh and least among the positive numbers. -/
lemma mintQueenNumber_spec (ks : List String) (c : Char) :
    ks.contains (queenIdStr c (mintQueenNumber ks c)) = false ∧
    1 ≤ mintQueenNumber ks c ∧
    ∀ m, 1 ≤ m → m < mintQueenNumber ks c →
      ks.contains (queenIdStr c m) = true := by
  unfold mintQueenNumber
  obtain ⟨i, hi, hfree⟩ := mint_exists_free ks c
  exact mintFrom_spec ks c (ks.length + 1) 1 ⟨i, hi, hfree⟩

/-- `find?` reaches an entry appended behind keys that all differ from it. -/
lemma find?_append_last (l : List (String × Piece)) (k : String) (v : Piece)
    (h : ∀ kv ∈ l, kv.1 ≠ k) :
    (l ++ [(k, v)]).find? (fun kv => kv.1 == k) = some (k, v) := by
  induction l with
  | nil => simp
  | cons kv l ih =>
      have hne : (kv.1 == k) = false :=
        beq_eq_false_iff_ne.mpr (h kv (List.mem_cons_self _ _))
      simp only [List.cons_append, List.find?_cons, hne]
      exact ih fun kv2 h2 => h kv2 (List.mem_cons_of_mem _ h2)

/-- The queen id minted when `pawn` promotes in state `st`:
`Q<side>_<n>` for the least free positive `n`. -/
def mintedId (st : GameState) (pawn : Piece) : String :=
  queenIdStr (sideOf pawn.id) (mintQueenNumber (keys st.pieceById) (sideOf pawn.id))

/-- The promoted pawn: the same piece rebound under the minted id. -/
def mintedPiece (st : GameState) (pawn : Piece) : Piece :=
  { pawn with id := mintedId st pawn }

/-- Computation of `promotePawnToQueen` on a pawn-prefixed id. -/
lemma promotePawnToQueen_eq (st : GameState) (pawn : Piece)
    (hP : strStarts pawn.id "P" = true) :
    promotePawnToQueen st pawn =
      ({ st with
          pieces := st.pieces.map
            (fun q => if q.id == pawn.id then mintedPiece st pawn else q),
          pieceById := eraseKey st.pieceById pawn.id ++
            [(mintedId st pawn, mintedPiece st pawn)],
          promotedQueens := st.promotedQueens ++ [mintedId st pawn] },
        some ⟨mintedId st pawn, pawn.cell, pawn.cell, "promotion", true, pawn.id⟩) := by
  unfold promotePawnToQueen mintedPiece mintedId
  rw [hP]
  simp

/-- Computation of `checkPawnPromotion` on an unpromoted pawn standing on
its promotion row. -/
lemma checkPawnPromotion_eq (st : GameState) (pawn : Piece)
    (hP : strStarts pawn.id "P" = true)
    (hled : st.promotedPawns.contains pawn.id = false)
    (hrow : ((sideOf pawn.id == 'W' && pawn.cell.1 == 0) ||
        (sideOf pawn.id == 'B' && pawn.cell.1 == 7)) = true) :
    checkPawnPromotion st pawn pawn.cell =
      promotePawnToQueen
        { st with promotedPawns := st.promotedPawns ++ [pawn.id] } pawn := by
  unfold checkPawnPromotion
  rw [hP]
  have hled' : pawn.id ∉ st.promotedPawns := by simpa using hled
  simp [hled', hrow]

/-- C3: an unpromoted pawn on its promotion row is promoted: the old id is
retired from the id-to-piece lookup, the minted id `Q<side>_<n>` uses the
smallest positive `n` whose id is not already a key, the same piece is
registered under the new id at the same cell (so the old id no longer
resolves to a live piece), and a `PIECE_MOVED` event with a
`promotion=true` marker carries the old and new ids at the same cell. -/
theorem C3_promotion_identity_swap
    (st : GameState) (pawn : Piece)
    (hP : strStarts pawn.id "P" = true)
    (hled : st.promotedPawns.contains pawn.id = false)
    (hrow : ((sideOf pawn.id == 'W' && pawn.cell.1 == 0) ||
        (sideOf pawn.id == 'B' && pawn.cell.1 == 7)) = true) :
    (checkPawnPromotion st pawn pawn.cell).2 =
      some ⟨mintedId st pawn, pawn.cell, pawn.cell, "promotion", true, pawn.id⟩ ∧
    (keys st.pieceById).contains (mintedId st pawn) = false ∧
    (∀ m, 1 ≤ m → m < mintQueenNumber (keys st.pieceById) (sideOf pawn.id) →
      (keys st.pieceById).contains (queenIdStr (sideOf pawn.id) m) = true) ∧
    pawn.id ∉ keys (checkPawnPromotion st pawn pawn.cell).1.pieceById ∧
    (checkPawnPromotion st pawn pawn.cell).1.pieceById.find?
        (fun kv => kv.1 == mintedId st pawn) =
      some (mintedId st pawn, mintedPiece st pawn) ∧
    (mintedPiece st pawn).cell = pawn.cell ∧
    (checkPawnPromotion st pawn pawn.cell).1.promotedPawns =
      st.promotedPawns ++ [pawn.id] := by
  obtain ⟨hfree, hpos, hmin⟩ :=
    mintQueenNumber_spec (keys st.pieceById) (sideOf pawn.id)
  have hR := checkPawnPromotion_eq st pawn hP hled hrow
  rw [promotePawnToQueen_eq _ pawn hP] at hR
  rw [hR]
  have hQP : mintedId st pawn ≠ pawn.id :=
    queenIdStr_ne_pawn (sideOf pawn.id) _ pawn.id hP
  refine ⟨rfl, hfree, hmin, ?_, ?_, rfl, rfl⟩
  · intro hmem
    simp only [keys, List.map_append, List.mem_append] at hmem
    rcases hmem with hmem | hmem
    · obtain ⟨kv, hkv, hkveq⟩ := List.mem_map.mp hmem
      have := (List.mem_filter.mp hkv).2
      rw [hkveq] at this
      simp at this
    · simp only [List.map_cons, List.map_nil, List.mem_singleton] at hmem
      exact hQP hmem.symm
  · apply find?_append_last
    intro kv hkv heq
    have hmemkeys : kv.1 ∈ keys st.pieceById :=
      List.mem_map.mpr ⟨kv, List.mem_of_mem_filter hkv, rfl⟩
    rw [heq] at hmemkeys
    have htrue : (keys st.pieceById).contains
        (queenIdStr (sideOf pawn.id)
          (mintQueenNumber (keys st.pieceById) (sideOf pawn.id))) = true :=
      List.elem_iff.mpr hmemkeys
    rw [htrue] at hfree
    simp at hfree

/-- The pawn of the C3/C9 witness scenarios, standing on its promotion
row at `(0, 3)` (spec Scenario A). -/
def promoPawn : Piece := ⟨"PW1", true, true, false, false, false, 100, (0, 3)⟩

/-- The witness state for promotion: the single pawn, nothing promoted yet. -/
def stPromo : GameState :=
  ⟨[promoPawn], [("PW1", promoPawn)], [], [], [], false, false⟩

/-- Witness for C3 at Scenario A: pawn `PW1` at `(0, 3)` promotes; `PW1` no
longer resolves, the fresh id resolves to the same piece at the same cell,
and the promotion event carries both ids. -/
theorem C3_witness :
    (checkPawnPromotion stPromo promoPawn promoPawn.cell).2 =
      some ⟨mintedId stPromo promoPawn, promoPawn.cell, promoPawn.cell,
        "promotion", true, promoPawn.id⟩ ∧
    (keys stPromo.pieceById).contains (mintedId stPromo promoPawn) = false ∧
    (∀ m, 1 ≤ m →
      m < mintQueenNumber (keys stPromo.pieceById) (sideOf promoPawn.id) →
      (keys stPromo.pieceById).contains
        (queenIdStr (sideOf promoPawn.id) m) = true) ∧
    promoPawn.id ∉
      keys (checkPawnPromotion stPromo promoPawn promoPawn.cell).1.pieceById ∧
    (checkPawnPromotion stPromo promoPawn promoPawn.cell).1.pieceById.find?
        (fun kv => kv.1 == mintedId stPromo promoPawn) =
      some (mintedId stPromo promoPawn, mintedPiece stPromo promoPawn) ∧
    (mintedPiece stPromo promoPawn).cell = promoPawn.cell ∧
    (checkPawnPromotion stPromo promoPawn promoPawn.cell).1.promotedPawns =
      stPromo.promotedPawns ++ [promoPawn.id] :=
  C3_promotion_identity_swap stPromo promoPawn (by decide) (by decide) (by decide)

/-- The post-collision promotion scan changes nothing when every pawn id is
already in the promoted-pawns ledger. -/
lemma checkPostCollisionPromotions_noop (st3 : GameState)
    (hall : ∀ q ∈ st3.pieces, strStarts q.id "P" = true →
      st3.promotedPawns.contains q.id = true) :
    checkPostCollisionPromotions st3 = (st3, []) := by
  unfold checkPostCollisionPromotions
  generalize hgen : st3.pieces = l at hall ⊢
  clear hgen
  induction l with
  | nil => rfl
  | cons q l ih =>
      simp only [List.foldl_cons]
      by_cases hq : strStarts q.id "P" = true
      · have hc := hall q (List.mem_cons_self _ _) hq
        simp only [hq, hc, Bool.not_true, Bool.and_false, Bool.false_eq_true,
          if_neg]
        exact ih fun r hr => hall r (List.mem_cons_of_mem _ hr)
      · have hq' : strStarts q.id "P" = false := by simpa using hq
        simp only [hq', Bool.false_and, Bool.false_eq_true, if_neg]
        exact ih fun r hr => hall r (List.mem_cons_of_mem _ hr)

/-- C9: promotion is performed at most once per originating pawn id — once
the id is recorded in the promoted-pawns ledger, every further run of the
promotion check for that id leaves the whole game state unchanged and
publishes nothing (no new queen id, no identity swap); a successful
promotion records the id in the ledger; and when every pawn id is already
in the ledger, the post-collision scan over all pieces is a no-op. -/
theorem C9_promotion_idempotent
    (st : GameState) (p : Piece) (pos : Cell)
    (hmem : st.promotedPawns.contains p.id = true) :
    checkPawnPromotion st p pos = (st, none) ∧
    (∀ (st2 : GameState) (q : Piece),
      strStarts q.id "P" = true →
      st2.promotedPawns.contains q.id = false →
      ((sideOf q.id == 'W' && q.cell.1 == 0) ||
        (sideOf q.id == 'B' && q.cell.1 == 7)) = true →
      (checkPawnPromotion st2 q q.cell).1.promotedPawns =
        st2.promotedPawns ++ [q.id]) ∧
    (∀ st3 : GameState,
      (∀ q ∈ st3.pieces, strStarts q.id "P" = true →
        st3.promotedPawns.contains q.id = true) →
      checkPostCollisionPromotions st3 = (st3, [])) := by
  refine ⟨?_, ?_, fun st3 hall => checkPostCollisionPromotions_noop st3 hall⟩
  · unfold checkPawnPromotion
    cases hPfx : strStarts p.id "P" with
    | false => simp [hPfx]
    | true =>
        have hmem' : p.id ∈ st.promotedPawns := List.elem_iff.mp hmem
        simp [hPfx, hmem']
  · intro st2 q hP2 hled2 hrow2
    rw [checkPawnPromotion_eq st2 q hP2 hled2 hrow2,
      promotePawnToQueen_eq _ q hP2]

/-- The already-promoted ledger state of the C9 witness. -/
def stLedger : GameState :=
  ⟨[promoPawn], [("PW1", promoPawn)], ["PW1"], ["QW_1"], [], false, false⟩

/-- Witness for C9: with `PW1` recorded in the ledger, the promotion check
for it is a no-op, a fresh promotion records its id, and the
post-collision scan over the all-promoted piece list changes nothing. -/
theorem C9_witness :
    checkPawnPromotion stLedger promoPawn (0, 3) = (stLedger, none) ∧
    (checkPawnPromotion stPromo promoPawn promoPawn.cell).1.promotedPawns =
      stPromo.promotedPawns ++ [promoPawn.id] ∧
    checkPostCollisionPromotions stLedger = (stLedger, []) := by
  obtain ⟨h1, h2, h3⟩ :=
    C9_promotion_idempotent stLedger promoPawn (0, 3) (by decide)
  exact ⟨h1, h2 stPromo promoPawn (by decide) (by decide) (by decide),
    h3 stLedger (by decide)⟩

end KFC
